import Mathlib

/-!
Verification of the LKO agent core against its specification.

The Python source is shallowly embedded: floats become `ℚ`, the FAISS
index becomes an explicit list of embedding vectors, the process table
becomes a function from pids to optional process records, and every
side-effecting operation threads its state explicitly.
-/

/-! ## Incident vector store (`agent/memory/vector_store.py`) -/

/-- Squared Euclidean distance between two embedding vectors
(FAISS `IndexFlatL2` metric). -/
def sqDist (q e : List ℚ) : ℚ :=
  (List.zipWith (fun a b => (a - b) ^ 2) q e).sum

/-- The (distance, id) pair for every stored embedding, ids counted from `i`. -/
def distPairs (q : List ℚ) : List (List ℚ) → ℕ → List (ℚ × ℕ)
  | [], _ => []
  | e :: rest, i => (sqDist q e, i) :: distPairs q rest (i + 1)

/-- Ordering used by the nearest-neighbour search: smaller distance first,
ties broken by smaller id. -/
def pairLE (p r : ℚ × ℕ) : Prop :=
  p.1 < r.1 ∨ (p.1 = r.1 ∧ p.2 ≤ r.2)

instance : DecidableRel pairLE := fun p r => by
  unfold pairLE; infer_instance

instance : IsTotal (ℚ × ℕ) pairLE where
  total p r := by
    rcases lt_trichotomy p.1 r.1 with h | h | h
    · exact Or.inl (Or.inl h)
    · rcases Nat.le_total p.2 r.2 with h2 | h2
      · exact Or.inl (Or.inr ⟨h, h2⟩)
      · exact Or.inr (Or.inr ⟨h.symm, h2⟩)
    · exact Or.inr (Or.inl h)

instance : IsTrans (ℚ × ℕ) pairLE where
  trans p r t hpr hrt := by
    rcases hpr with h1 | ⟨h1, h1n⟩ <;> rcases hrt with h2 | ⟨h2, h2n⟩
    · exact Or.inl (h1.trans h2)
    · exact Or.inl (h2 ▸ h1)
    · exact Or.inl (h1 ▸ h2)
    · exact Or.inr ⟨h1.trans h2, h1n.trans h2n⟩

/-- Modelled from the spec: the external FAISS `IndexFlatL2.search` call is not
part of this repository; per the spec it performs exact brute-force search,
returning the `k` smallest squared-L2 distances with their ids, ties broken by
insertion order (lower id first). -/
def faissSearch (embs : List (List ℚ)) (q : List ℚ) (k : ℕ) : List (ℚ × ℕ) :=
  (List.insertionSort pairLE (distPairs q embs 0)).take k

/-- `VectorStore`: the FAISS index (list of embeddings) and the metadata
side list, as in `VectorStore.__init__`. -/
structure VectorStore (α : Type) where
  embeddings : List (List ℚ)
  metadata : List α

/-- `VectorStore.count`: `self.index.ntotal`. -/
def VectorStore.count {α : Type} (s : VectorStore α) : ℕ :=
  s.embeddings.length

/-- `VectorStore.search`: returns `[]` on an empty index, else requests
`min k ntotal` nearest neighbours and keeps a `(metadata, 1/(1+dist))` pair
for each returned id that is in range of the metadata list. -/
def VectorStore.search {α : Type} (s : VectorStore α) (q : List ℚ) (k : ℕ) :
    List (α × ℚ) :=
  if s.count = 0 then []
  else
    (faissSearch s.embeddings q (min k s.count)).filterMap
      (fun p => (s.metadata[p.2]?).map (fun m => (m, 1 / (1 + p.1))))

/-- `VectorStore.add`: append one embedding to the index and one record to the
metadata list; the returned id is `len(self.metadata) - 1` after the append. -/
def VectorStore.add {α : Type} (s : VectorStore α) (emb : List ℚ) (m : α) :
    VectorStore α × ℕ :=
  ({ embeddings := s.embeddings ++ [emb], metadata := s.metadata ++ [m] },
   s.metadata.length)

/-- `VectorStore.add_batch`: the index grows by one vector per text, while the
metadata list grows by `zip(texts, metadata_list)`, i.e. by
`min (texts.length) (metadata_list.length)` records. -/
def VectorStore.add_batch {α : Type} (s : VectorStore α)
    (embs : List (List ℚ)) (metas : List α) : VectorStore α :=
  { embeddings := s.embeddings ++ embs,
    metadata := s.metadata ++ metas.take embs.length }

/-- The two persisted artifacts: the FAISS index file and the metadata
pickle, each possibly absent. -/
structure Disk (α : Type) where
  indexFile : Option (List (List ℚ))
  metaFile : Option (List α)

/-- `VectorStore.save`: writes both artifacts. -/
def VectorStore.save {α : Type} (s : VectorStore α) : Disk α :=
  ⟨some s.embeddings, some s.metadata⟩

/-- `VectorStore.load`: if the index file exists it is read, and the metadata
pickle is read only if it also exists (otherwise the in-memory metadata is kept
unchanged); if the index file is missing a fresh empty index is created and the
in-memory metadata is kept. -/
def VectorStore.load {α : Type} (s : VectorStore α) (d : Disk α) :
    VectorStore α :=
  match d.indexFile with
  | some embs => { embeddings := embs, metadata := d.metaFile.getD s.metadata }
  | none => { embeddings := [], metadata := s.metadata }

/-- The pairing invariant of the store: index and metadata have equal length. -/
def VSinv {α : Type} (s : VectorStore α) : Prop :=
  s.embeddings.length = s.metadata.length

/-! ## Resource manager (`agent/tools/resource_manager.py`) -/

/-- A process as observed through psutil: name, current niceness, whether the
caller may signal or renice it (`AccessDenied` is raised otherwise), and
whether it exits within the wait window after SIGTERM. -/
structure Proc where
  name : String
  nice : Int
  allowed : Bool
  exitsOnTerm : Bool

/-- The process table: pid to process record, `none` when no such process. -/
abbrev Sys : Type := ℕ → Option Proc

/-- The result record of one remediation tier (the dict returned by each
`ResourceManager` method): success flag, `action` tag, human-readable
message, and the `dry_run` marker present on dry-run results. -/
structure RemResult where
  success : Bool
  action : String
  message : String
  dryRun : Bool

/-- `ResourceManager.renice_process` (Python default `new_nice=19`): read the
niceness; if already at or above the target return a failure without touching
anything; in dry-run mode report the intended change; otherwise set the new
niceness, unless permission is denied. -/
def renice_process (dry : Bool) (sys : Sys) (pid : ℕ) (new_nice : Int) :
    RemResult × Sys :=
  match sys pid with
  | none =>
      ({ success := false, action := "renice",
         message := "Process " ++ toString pid ++ " not found",
         dryRun := false }, sys)
  | some p =>
      if new_nice ≤ p.nice then
        ({ success := false, action := "renice",
           message := "Process already at nice " ++ toString p.nice,
           dryRun := false }, sys)
      else if dry then
        ({ success := true, action := "renice",
           message := "DRY RUN: Would renice PID " ++ toString pid ++
             " from " ++ toString p.nice ++ " to " ++ toString new_nice,
           dryRun := true }, sys)
      else if p.allowed then
        ({ success := true, action := "renice",
           message := "Reniced PID " ++ toString pid ++ ": " ++
             toString p.nice ++ " -> " ++ toString new_nice,
           dryRun := false },
         fun r => if r = pid then some { p with nice := new_nice } else sys r)
      else
        ({ success := false, action := "renice",
           message := "Permission denied for PID " ++ toString pid,
           dryRun := false }, sys)

/-- `ResourceManager.graceful_stop` (Python default `wait_seconds=5`): SIGTERM
then wait; success iff the process exits within the window; dry-run mode only
reports; a missing process or denied permission is a structured failure. -/
def graceful_stop (dry : Bool) (sys : Sys) (pid : ℕ) (wait_seconds : ℕ) :
    RemResult × Sys :=
  match sys pid with
  | none =>
      ({ success := false, action := "graceful_stop",
         message := "Process " ++ toString pid ++ " not found",
         dryRun := false }, sys)
  | some p =>
      if dry then
        ({ success := true, action := "graceful_stop",
           message := "DRY RUN: Would send SIGTERM to PID " ++ toString pid ++
             " (" ++ p.name ++ ")",
           dryRun := true }, sys)
      else if p.allowed then
        if p.exitsOnTerm then
          ({ success := true, action := "graceful_stop",
             message := "Process " ++ toString pid ++ " (" ++ p.name ++
               ") stopped gracefully",
             dryRun := false },
           fun r => if r = pid then none else sys r)
        else
          ({ success := false, action := "graceful_stop",
             message := "Process " ++ toString pid ++ " did not stop after " ++
               toString wait_seconds ++ "s",
             dryRun := false }, sys)
      else
        ({ success := false, action := "graceful_stop",
           message := "Permission denied for PID " ++ toString pid,
           dryRun := false }, sys)

/-- `ResourceManager.force_kill`: SIGKILL; a process missing at call time
yields a failure result with an "already gone" message; in dry-run mode only
reports; on success the process is removed from the table. -/
def force_kill (dry : Bool) (sys : Sys) (pid : ℕ) : RemResult × Sys :=
  match sys pid with
  | none =>
      ({ success := false, action := "force_kill",
         message := "Process " ++ toString pid ++ " already gone",
         dryRun := false }, sys)
  | some p =>
      if dry then
        ({ success := true, action := "force_kill",
           message := "DRY RUN: Would send SIGKILL to PID " ++ toString pid ++
             " (" ++ p.name ++ ")",
           dryRun := true }, sys)
      else if p.allowed then
        ({ success := true, action := "force_kill",
           message := "Force killed PID " ++ toString pid ++
             " (" ++ p.name ++ ")",
           dryRun := false },
         fun r => if r = pid then none else sys r)
      else
        ({ success := false, action := "force_kill",
           message := "Permission denied for PID " ++ toString pid,
           dryRun := false }, sys)

/-- `ResourceManager.smart_remediate`: renice first (target 19); only in
dry-run mode also simulate graceful stop (wait 5) and force kill; in live mode
return just the renice result. -/
def smart_remediate (dry : Bool) (sys : Sys) (pid : ℕ) :
    List RemResult × Sys :=
  let r1 := renice_process dry sys pid 19
  if dry then
    let r2 := graceful_stop dry r1.2 pid 5
    let r3 := force_kill dry r2.2 pid
    ([r1.1, r2.1, r3.1], r3.2)
  else
    ([r1.1], r1.2)

/-! ## Runbook engine (`agent/runbooks/engine.py`) -/

/-- One entry of `context['disk_usage']`. -/
structure DiskEntry where
  filesystem : String
  usage_percent : ℚ

/-- The observation context dict: the two keys the engine reads, each possibly
absent. -/
structure Context where
  disk_usage : Option (List DiskEntry)
  memory_usage : Option ℚ

/-- The `trigger` dict of a runbook; every key may be absent, the checking
functions apply the source's `.get` defaults. -/
structure Trigger where
  ttype : Option String
  threshold : Option ℚ
  operator : Option String
  filesystem : Option String

/-- A runbook action dict, tagged by its `type` key; dicts with an
unrecognized or missing type are `other`. -/
inductive RbAction where
  | alert (message severity : String)
  | command (run : String) (timeout : ℕ)
  | wait (seconds : ℕ)
  | other

/-- A runbook dict: `name`, `enabled` (default true), `trigger`, `actions`. -/
structure Runbook where
  name : Option String
  enabled : Option Bool
  trigger : Trigger
  actions : List RbAction

/-- `RunbookEngine._check_disk_trigger`: defaults filesystem `/`, threshold
90, operator `>`; scans the disk entries for one with the trigger's
filesystem whose usage passes the operator test. -/
def check_disk_trigger (t : Trigger) (ctx : Context) : Bool :=
  match ctx.disk_usage with
  | none => false
  | some disks =>
      let fs := t.filesystem.getD "/"
      let th := t.threshold.getD 90
      let op := t.operator.getD ">"
      disks.any (fun d =>
        d.filesystem == fs &&
          ((op == ">" && decide (th < d.usage_percent)) ||
           (op == ">=" && decide (th ≤ d.usage_percent))))

/-- `RunbookEngine._check_memory_trigger`: defaults threshold 85, operator
`>=`; applies the operator test to the single memory reading. -/
def check_memory_trigger (t : Trigger) (ctx : Context) : Bool :=
  match ctx.memory_usage with
  | none => false
  | some usage =>
      let th := t.threshold.getD 85
      let op := t.operator.getD ">="
      (op == ">=" && decide (th ≤ usage)) || (op == ">" && decide (th < usage))

/-- `RunbookEngine.check_trigger`: disabled runbooks never fire; dispatch on
the trigger type, unknown types never fire. -/
def check_trigger (rb : Runbook) (ctx : Context) : Bool :=
  if !(rb.enabled.getD true) then false
  else
    match rb.trigger.ttype with
    | some "disk_usage" => check_disk_trigger rb.trigger ctx
    | some "memory_usage" => check_memory_trigger rb.trigger ctx
    | _ => false

/-- `RunbookEngine.find_matching_runbooks`: all firing runbooks in load
order. -/
def find_matching_runbooks (rbs : List Runbook) (ctx : Context) :
    List Runbook :=
  rbs.filter (fun rb => check_trigger rb ctx)

/-- The world the action executor can affect: the outcome of spawning each
shell string (`none` = timeout or spawn failure), the log of spawned
commands, and total time slept. -/
structure World where
  exitCode : String → Option Int
  spawned : List String
  slept : ℕ

/-- The result dict of one executed action: success flag, `type` tag (absent
for unknown actions), and the `dry_run` marker on dry-run command results. -/
structure ActionResult where
  success : Bool
  rtype : Option String
  dryRun : Bool

/-- `RunbookEngine._execute_alert`: always succeeds; only printing differs
between dry-run and live mode. -/
def execute_alert (_dry : Bool) (w : World) (_message _severity : String) :
    ActionResult × World :=
  ({ success := true, rtype := some "alert", dryRun := false }, w)

/-- `RunbookEngine._execute_command`: in dry-run mode report success without
spawning; in live mode spawn the shell string, succeeding iff it exits 0;
timeout or spawn failure yields a failure result. -/
def execute_command (dry : Bool) (w : World) (run : String) (_timeout : ℕ) :
    ActionResult × World :=
  if dry then
    ({ success := true, rtype := some "command", dryRun := true }, w)
  else
    match w.exitCode run with
    | some c =>
        ({ success := decide (c = 0), rtype := some "command",
           dryRun := false },
         { w with spawned := w.spawned ++ [run] })
    | none =>
        ({ success := false, rtype := some "command", dryRun := false },
         { w with spawned := w.spawned ++ [run] })

/-- `RunbookEngine._execute_wait`: always succeeds; sleeps only in live
mode. -/
def execute_wait (dry : Bool) (w : World) (seconds : ℕ) :
    ActionResult × World :=
  if dry then
    ({ success := true, rtype := some "wait", dryRun := false }, w)
  else
    ({ success := true, rtype := some "wait", dryRun := false },
     { w with slept := w.slept + seconds })

/-- The action dispatch inside `RunbookEngine.execute_runbook`; an
unrecognized action type yields a bare failure dict. -/
def execAction (dry : Bool) (w : World) : RbAction → ActionResult × World
  | .alert m s => execute_alert dry w m s
  | .command r t => execute_command dry w r t
  | .wait s => execute_wait dry w s
  | .other => ({ success := false, rtype := none, dryRun := false }, w)

/-- The action loop of `RunbookEngine.execute_runbook`: every action is
executed in declared order, with no branching on earlier results. -/
def runActions (dry : Bool) (w : World) :
    List RbAction → List ActionResult × World
  | [] => ([], w)
  | a :: rest =>
      let rw := execAction dry w a
      let rs := runActions dry rw.2 rest
      (rw.1 :: rs.1, rs.2)

/-- The dict returned by `RunbookEngine.execute_runbook`. -/
structure ExecutionResult where
  runbook : String
  action_results : List ActionResult

/-- `RunbookEngine.execute_runbook` (the `context` argument is unused in the
source body). -/
def execute_runbook (rb : Runbook) (_ctx : Context) (dry : Bool) (w : World) :
    ExecutionResult × World :=
  let rs := runActions dry w rb.actions
  ({ runbook := rb.name.getD "unknown", action_results := rs.1 }, rs.2)

/-- The `type` tag `execute_runbook` dispatches on, per action variant. -/
def actionTag : RbAction → Option String
  | .alert _ _ => some "alert"
  | .command _ _ => some "command"
  | .wait _ => some "wait"
  | .other => none

/-- The shell strings of all command actions, in declared order. -/
def commandsOf : List RbAction → List String :=
  List.filterMap (fun a =>
    match a with
    | .command r _ => some r
    | _ => none)

/-! ## Daemon scheduler (`agent_daemon.py`) -/

/-- The two intervals `AgentDaemon.load_config` reads. -/
structure DaemonCfg where
  health_check_interval : Int
  resource_check_interval : Int

/-- The `last_health_check` / `last_resource_check` locals of
`AgentDaemon.run`, both initialized to 0. -/
structure DaemonState where
  last_health_check : Int
  last_resource_check : Int

/-- The initial timer state of `AgentDaemon.run`. -/
def daemonInit : DaemonState := { last_health_check := 0, last_resource_check := 0 }

/-- One iteration of the `while self.running` loop of `AgentDaemon.run` at
wall-clock time `now`: whether the health check ran, whether the resource
check ran, and the updated timer state. -/
def daemonTick (cfg : DaemonCfg) (st : DaemonState) (now : Int) :
    Bool × Bool × DaemonState :=
  let hFire := decide (cfg.health_check_interval ≤ now - st.last_health_check)
  let st1 := if hFire then { st with last_health_check := now } else st
  let rFire :=
    decide (cfg.resource_check_interval ≤ now - st1.last_resource_check)
  let st2 := if rFire then { st1 with last_resource_check := now } else st1
  (hFire, rFire, st2)

/-! ### Vector store lemmas -/

theorem distPairs_length (q : List ℚ) :
    ∀ (embs : List (List ℚ)) (i : ℕ), (distPairs q embs i).length = embs.length
  | [], _ => rfl
  | _ :: rest, i => by simp [distPairs, distPairs_length q rest (i + 1)]

theorem sqDist_nonneg (q : List ℚ) : ∀ e : List ℚ, 0 ≤ sqDist q e := by
  induction q with
  | nil => intro e; simp [sqDist]
  | cons a q ih =>
    intro e
    cases e with
    | nil => simp [sqDist]
    | cons b e =>
      have h1 : 0 ≤ sqDist q e := ih e
      have h2 : 0 ≤ (a - b) ^ 2 := sq_nonneg _
      simp only [sqDist, List.zipWith_cons_cons, List.sum_cons]
      have h1' : 0 ≤ (List.zipWith (fun a b => (a - b) ^ 2) q e).sum := h1
      linarith

theorem distPairs_mem_bounds (q : List ℚ) :
    ∀ (embs : List (List ℚ)) (i : ℕ), ∀ p ∈ distPairs q embs i,
      0 ≤ p.1 ∧ i ≤ p.2 ∧ p.2 < i + embs.length := by
  intro embs
  induction embs with
  | nil => intro i p hp; simp [distPairs] at hp
  | cons e rest ih =>
    intro i p hp
    simp only [distPairs, List.mem_cons] at hp
    rcases hp with rfl | hp
    · exact ⟨sqDist_nonneg q e, le_refl _, by simp⟩
    · obtain ⟨h0, h1, h2⟩ := ih (i + 1) p hp
      refine ⟨h0, le_trans (Nat.le_succ i) h1, ?_⟩
      simp only [List.length_cons]
      omega

theorem faissSearch_length (embs : List (List ℚ)) (q : List ℚ) (k : ℕ) :
    (faissSearch embs q k).length = min k embs.length := by
  unfold faissSearch
  rw [List.length_take, (List.perm_insertionSort pairLE _).length_eq,
    distPairs_length]

theorem faissSearch_mem_bounds (embs : List (List ℚ)) (q : List ℚ) (k : ℕ) :
    ∀ p ∈ faissSearch embs q k, 0 ≤ p.1 ∧ p.2 < embs.length := by
  intro p hp
  have hmem : p ∈ distPairs q embs 0 := by
    have := List.mem_of_mem_take hp
    exact ((List.perm_insertionSort pairLE _).mem_iff).mp this
  obtain ⟨h0, _, h2⟩ := distPairs_mem_bounds q embs 0 p hmem
  exact ⟨h0, by omega⟩

theorem faissSearch_sorted (embs : List (List ℚ)) (q : List ℚ) (k : ℕ) :
    List.Sorted pairLE (faissSearch embs q k) :=
  List.Pairwise.take (List.sorted_insertionSort pairLE _)

theorem length_filterMap_of_isSome {α β : Type} {f : α → Option β} :
    ∀ {l : List α}, (∀ a ∈ l, (f a).isSome) → (l.filterMap f).length = l.length
  | [], _ => rfl
  | a :: l, h => by
    obtain ⟨b, hb⟩ := Option.isSome_iff_exists.mp (h a (by simp))
    rw [List.filterMap_cons, hb]
    have ih := length_filterMap_of_isSome
      (fun x hx => h x (List.mem_cons_of_mem a hx))
    simp [ih]

theorem search_eq_filterMap {α : Type} (s : VectorStore α) (q : List ℚ) (k : ℕ)
    (hc : s.count ≠ 0) :
    s.search q k =
      (faissSearch s.embeddings q (min k s.count)).filterMap
        (fun p => (s.metadata[p.2]?).map (fun m => (m, 1 / (1 + p.1)))) := by
  simp [VectorStore.search, hc]

theorem search_isSome_all {α : Type} (s : VectorStore α) (q : List ℚ) (k : ℕ)
    (h : s.count ≤ s.metadata.length) :
    ∀ p ∈ faissSearch s.embeddings q (min k s.count),
      ((s.metadata[p.2]?).map (fun m => (m, 1 / (1 + p.1)))).isSome := by
  intro p hp
  obtain ⟨_, h2⟩ := faissSearch_mem_bounds s.embeddings q _ p hp
  have hlt : p.2 < s.metadata.length := lt_of_lt_of_le h2 h
  rw [List.getElem?_eq_getElem hlt]
  simp

/-- C1 (amended): for every store state whose metadata list is at least as long
as the index (in particular every state satisfying the pairing invariant) and
every query, `search(query, k)` returns a sequence of (metadata, similarity)
pairs of length `min k count`, sorted by non-increasing similarity where
`similarity = 1 / (1 + squared L2 distance)` lies in `(0, 1]`, with ties broken
by insertion order (lower id first, via the `pairLE`-sorted id list); an empty
store yields the empty sequence. Without the length hypothesis the returned
sequence can be shorter, see the counterexample. -/
theorem search_spec {α : Type} (s : VectorStore α) (q : List ℚ) (k : ℕ)
    (h : s.count ≤ s.metadata.length) :
    (s.search q k).length = min k s.count ∧
    List.Sorted (fun x y : α × ℚ => y.2 ≤ x.2) (s.search q k) ∧
    (∀ p ∈ s.search q k, 0 < p.2 ∧ p.2 ≤ 1) ∧
    (s.count = 0 → s.search q k = []) ∧
    List.Sorted pairLE (faissSearch s.embeddings q (min k s.count)) := by
  by_cases hc : s.count = 0
  · have hs : s.search q k = [] := by simp [VectorStore.search, hc]
    refine ⟨?_, ?_, ?_, fun _ => hs, faissSearch_sorted _ _ _⟩
    · simp [hs, hc]
    · simp [hs]
    · simp [hs]
  · have hs := search_eq_filterMap s q k hc
    have hsome := search_isSome_all s q k h
    refine ⟨?_, ?_, ?_, fun h0 => absurd h0 hc, faissSearch_sorted _ _ _⟩
    · rw [hs, length_filterMap_of_isSome hsome, faissSearch_length]
      simp only [VectorStore.count]
      omega
    · rw [hs]
      show List.Pairwise _ _
      have hsort : List.Pairwise (fun p r : ℚ × ℕ => 0 ≤ p.1 ∧ p.1 ≤ r.1)
          (faissSearch s.embeddings q (min k s.count)) := by
        have hbase : List.Pairwise pairLE
            (faissSearch s.embeddings q (min k s.count)) :=
          faissSearch_sorted s.embeddings q _
        refine hbase.imp_of_mem ?_
        intro a b ha _ hab
        obtain ⟨h0, _⟩ := faissSearch_mem_bounds s.embeddings q _ a ha
        rcases hab with hlt | ⟨heq, _⟩
        · exact ⟨h0, le_of_lt hlt⟩
        · exact ⟨h0, le_of_eq heq⟩
      refine hsort.filterMap _ ?_
      intro a b hab x hx y hy
      rw [Option.mem_def, Option.map_eq_some'] at hx hy
      obtain ⟨mx, _, rfl⟩ := hx
      obtain ⟨my, _, rfl⟩ := hy
      obtain ⟨h0, hle⟩ := hab
      exact one_div_le_one_div_of_le (by linarith) (by linarith)
    · rw [hs]
      intro p hp
      rw [List.mem_filterMap] at hp
      obtain ⟨a, ha, hfa⟩ := hp
      obtain ⟨h0, _⟩ := faissSearch_mem_bounds s.embeddings q _ a ha
      rw [Option.map_eq_some'] at hfa
      obtain ⟨m, _, rfl⟩ := hfa
      constructor
      · exact one_div_pos.mpr (by linarith)
      · rw [div_le_one (by linarith)]
        linarith

/-- C1 witness: a concrete two-record store where the search length law is
obtained from `search_spec` with its hypothesis discharged. -/
theorem search_spec_witness :
    ((VectorStore.mk (α := ℕ) [[(0 : ℚ)], [(1 : ℚ)]] [10, 20]).search
        [(0 : ℚ)] 2).length =
      min 2 (VectorStore.mk (α := ℕ) [[(0 : ℚ)], [(1 : ℚ)]] [10, 20]).count :=
  (search_spec (VectorStore.mk (α := ℕ) [[(0 : ℚ)], [(1 : ℚ)]] [10, 20])
    [(0 : ℚ)] 2 (by decide)).1

/-- C1 counterexample: in the store state with one embedding and no metadata
record (reachable by loading an index file whose metadata side file is
missing), `search` returns 0 results although `min k count = 1`. -/
theorem search_length_counterexample :
    ((VectorStore.mk (α := ℕ) [[(0 : ℚ)]] []).search [(0 : ℚ)] 1).length ≠
      min 1 (VectorStore.mk (α := ℕ) [[(0 : ℚ)]] []).count := by
  decide

/-- C2 (amended): `add` and `add_batch` (under the documented equal-length
precondition) preserve the pairing invariant, and `save` followed by `load`
restores both sequences, preserving the invariant; but `load` when only the
embeddings artifact exists keeps the loaded vectors while leaving the
in-memory metadata unchanged, so it does NOT reduce to an empty store and can
leave the two collections with mismatched lengths (see counterexample). -/
theorem pairing_invariant {α : Type} (s t : VectorStore α) (e : List ℚ) (m : α)
    (embs : List (List ℚ)) (metas : List α)
    (hs : VSinv s) (hlen : embs.length = metas.length) :
    VSinv (s.add e m).1 ∧
    VSinv (s.add_batch embs metas) ∧
    VSinv (t.load s.save) ∧
    (VectorStore.load s ⟨some embs, none⟩).embeddings = embs ∧
    (VectorStore.load s ⟨some embs, none⟩).metadata = s.metadata := by
  unfold VSinv at hs
  refine ⟨?_, ?_, ?_, rfl, rfl⟩
  · simp [VSinv, VectorStore.add]
    omega
  · simp [VSinv, VectorStore.add_batch]
    omega
  · simp [VSinv, VectorStore.load, VectorStore.save]
    exact hs

/-- C2 witness: the amended invariant statement applied at a concrete
one-record store, with both hypotheses discharged. -/
theorem pairing_invariant_witness :
    VSinv ((VectorStore.mk (α := ℕ) [[(0 : ℚ)]] [7]).add [(1 : ℚ)] 8).1 :=
  (pairing_invariant (VectorStore.mk (α := ℕ) [[(0 : ℚ)]] [7])
    (VectorStore.mk (α := ℕ) [] []) [(1 : ℚ)] 8 [] [] rfl rfl).1

/-- C2 counterexample: loading a disk state holding an embeddings artifact with
one vector but no metadata artifact produces a store that is not empty and
whose two collections have different lengths. -/
theorem load_mismatch_counterexample :
    ((VectorStore.mk (α := ℕ) [] []).load ⟨some [[(0 : ℚ)]], none⟩).count ≠ 0 ∧
    ((VectorStore.mk (α := ℕ) [] []).load
        ⟨some [[(0 : ℚ)]], none⟩).embeddings.length ≠
      ((VectorStore.mk (α := ℕ) [] []).load
        ⟨some [[(0 : ℚ)]], none⟩).metadata.length := by
  constructor <;> decide

/-- C10: for every store state, including mismatched ones, `search` is total,
returns at most `min k count` results, and every returned pair's metadata comes
from an index strictly below the metadata length. -/
theorem search_safe {α : Type} (s : VectorStore α) (q : List ℚ) (k : ℕ) :
    (s.search q k).length ≤ min k s.count ∧
    ∀ p ∈ s.search q k,
      ∃ i, i < s.metadata.length ∧ s.metadata[i]? = some p.1 := by
  by_cases hc : s.count = 0
  · simp [VectorStore.search, hc]
  · have hs := search_eq_filterMap s q k hc
    constructor
    · rw [hs]
      have h1 := List.length_filterMap_le
        (fun p : ℚ × ℕ => (s.metadata[p.2]?).map (fun m => (m, 1 / (1 + p.1))))
        (faissSearch s.embeddings q (min k s.count))
      have h2 := faissSearch_length s.embeddings q (min k s.count)
      rw [h2] at h1
      have hcc : s.count = s.embeddings.length := rfl
      omega
    · rw [hs]
      intro p hp
      rw [List.mem_filterMap] at hp
      obtain ⟨a, _, hfa⟩ := hp
      rw [Option.map_eq_some'] at hfa
      obtain ⟨m, hm, rfl⟩ := hfa
      obtain ⟨hlt, _⟩ := List.getElem?_eq_some_iff.mp hm
      exact ⟨a.2, hlt, hm⟩

/-! ### Resource manager lemmas -/

theorem renice_already (dry : Bool) (sys : Sys) (pid : ℕ) (tgt : Int)
    (p : Proc) (hp : sys pid = some p) (h : tgt ≤ p.nice) :
    (renice_process dry sys pid tgt).1.success = false ∧
    (renice_process dry sys pid tgt).1.message =
      "Process already at nice " ++ toString p.nice ∧
    (renice_process dry sys pid tgt).2 = sys := by
  simp [renice_process, hp, h]

theorem renice_dry_state (sys : Sys) (pid : ℕ) (tgt : Int) :
    (renice_process true sys pid tgt).2 = sys := by
  cases h : sys pid with
  | none => simp [renice_process, h]
  | some p =>
      by_cases h2 : tgt ≤ p.nice <;> simp [renice_process, h, h2]

theorem graceful_dry_state (sys : Sys) (pid : ℕ) (wsec : ℕ) :
    (graceful_stop true sys pid wsec).2 = sys := by
  cases h : sys pid <;> simp [graceful_stop, h]

theorem force_dry_state (sys : Sys) (pid : ℕ) :
    (force_kill true sys pid).2 = sys := by
  cases h : sys pid <;> simp [force_kill, h]

theorem renice_action (dry : Bool) (sys : Sys) (pid : ℕ) (tgt : Int) :
    (renice_process dry sys pid tgt).1.action = "renice" := by
  cases h : sys pid with
  | none => simp [renice_process, h]
  | some p =>
      simp only [renice_process, h]
      split_ifs <;> rfl

theorem graceful_action (dry : Bool) (sys : Sys) (pid : ℕ) (wsec : ℕ) :
    (graceful_stop dry sys pid wsec).1.action = "graceful_stop" := by
  cases h : sys pid with
  | none => simp [graceful_stop, h]
  | some p =>
      simp only [graceful_stop, h]
      split_ifs <;> rfl

theorem force_action (dry : Bool) (sys : Sys) (pid : ℕ) :
    (force_kill dry sys pid).1.action = "force_kill" := by
  cases h : sys pid with
  | none => simp [force_kill, h]
  | some p =>
      simp only [force_kill, h]
      split_ifs <;> rfl

theorem execAction_dry_state (w : World) (a : RbAction) :
    (execAction true w a).2 = w := by
  cases a <;> simp [execAction, execute_alert, execute_command, execute_wait]

theorem runActions_dry_state (acts : List RbAction) :
    ∀ w : World, (runActions true w acts).2 = w := by
  induction acts with
  | nil => intro w; rfl
  | cons a rest ih =>
      intro w
      simp [runActions, execAction_dry_state, ih]

/-- C3 (amended): in live mode `force_kill` reports success iff the process
exists at call time and the caller may signal it (on success the process is
removed); when the process is already gone the call returns a structured
FAILURE carrying an "already gone" message and leaves the table unchanged —
the documented "race treated as success" does not hold in the code. -/
theorem force_kill_spec (sys : Sys) (pid : ℕ) :
    ((force_kill false sys pid).1.success = true ↔
      ∃ p, sys pid = some p ∧ p.allowed = true) ∧
    (sys pid = none →
      (force_kill false sys pid).1.success = false ∧
      (force_kill false sys pid).1.message =
        "Process " ++ toString pid ++ " already gone" ∧
      (force_kill false sys pid).2 = sys) ∧
    ((force_kill false sys pid).1.success = true →
      (force_kill false sys pid).2 pid = none) := by
  cases h : sys pid with
  | none => simp [force_kill, h]
  | some p =>
      by_cases ha : p.allowed = true
      · simp [force_kill, h, ha]
      · simp [force_kill, h, ha]

/-- C3 witness: on a table holding a killable process at pid 1, live
`force_kill` removes it, by `force_kill_spec` with its success hypothesis
discharged by evaluation. -/
theorem force_kill_spec_witness :
    (force_kill false
        (fun n => if n = 1 then some ⟨"x", 0, true, true⟩ else none) 1).2 1 =
      none :=
  (force_kill_spec
      (fun n => if n = 1 then some ⟨"x", 0, true, true⟩ else none) 1).2.2
    (by decide)

/-- C3 counterexample: calling live `force_kill` on a pid with no process
(the "already gone" race) returns success = false with the "already gone"
message, where the claim demands success = true. -/
theorem force_kill_gone_counterexample :
    (force_kill false (fun _ => none) 1).1.success = false ∧
    (force_kill false (fun _ => none) 1).1.message =
      "Process 1 already gone" := by
  exact ⟨rfl, rfl⟩

/-- C5: with dry_run = true no remediation tier and no command or wait action
mutates observable state: the process table is returned unchanged by every
tier and by smart_remediate, and the world (spawned subprocesses, sleep time)
is returned unchanged by command execution and by a whole dry-run action
sequence. -/
theorem dry_run_non_mutation (sys : Sys) (pid : ℕ) (tgt : Int) (wsec : ℕ)
    (w : World) (cmd : String) (tmo : ℕ) (acts : List RbAction) :
    (renice_process true sys pid tgt).2 = sys ∧
    (graceful_stop true sys pid wsec).2 = sys ∧
    (force_kill true sys pid).2 = sys ∧
    (smart_remediate true sys pid).2 = sys ∧
    (execute_command true w cmd tmo).2 = w ∧
    (runActions true w acts).2 = w := by
  refine ⟨renice_dry_state sys pid tgt, graceful_dry_state sys pid wsec,
    force_dry_state sys pid, ?_, ?_, runActions_dry_state acts w⟩
  · simp [smart_remediate, renice_dry_state, graceful_dry_state,
      force_dry_state]
  · simp [execute_command]

/-- C6: dry-run smart_remediate returns exactly three per-tier results, in
the order renice, graceful_stop, force_kill, with the renice tier invoked
first on the given state; live smart_remediate returns only the renice
result. -/
theorem smart_remediate_order (sys : Sys) (pid : ℕ) :
    (smart_remediate true sys pid).1.map (fun r => r.action) =
      ["renice", "graceful_stop", "force_kill"] ∧
    (smart_remediate true sys pid).1.length = 3 ∧
    (smart_remediate true sys pid).1.head? =
      some (renice_process true sys pid 19).1 ∧
    (smart_remediate false sys pid).1 =
      [(renice_process false sys pid 19).1] := by
  refine ⟨?_, ?_, ?_, ?_⟩
  · simp [smart_remediate, renice_action, graceful_action, force_action]
  · simp [smart_remediate]
  · simp [smart_remediate]
  · simp [smart_remediate]

/-- C8: a process whose niceness already meets or exceeds the target makes
renice_process return a failure with the "already at nice" message and leave
the table untouched; hence after one successful live renice to the target, a
second identical call reports failure and performs no mutation. -/
theorem renice_idempotent (dry : Bool) (sys : Sys) (pid : ℕ) (tgt : Int)
    (p : Proc) (hp : sys pid = some p) :
    (tgt ≤ p.nice →
      (renice_process dry sys pid tgt).1.success = false ∧
      (renice_process dry sys pid tgt).1.message =
        "Process already at nice " ++ toString p.nice ∧
      (renice_process dry sys pid tgt).2 = sys) ∧
    (p.nice < tgt → p.allowed = true →
      (renice_process false (renice_process false sys pid tgt).2 pid
          tgt).1.success = false ∧
      (renice_process false (renice_process false sys pid tgt).2 pid tgt).2 =
        (renice_process false sys pid tgt).2) := by
  constructor
  · intro h
    exact renice_already dry sys pid tgt p hp h
  · intro h ha
    have hnot : ¬ tgt ≤ p.nice := not_le.mpr h
    have hp2 : (renice_process false sys pid tgt).2 pid =
        some { p with nice := tgt } := by
      simp [renice_process, hp, hnot, ha]
    have h2 := renice_already false (renice_process false sys pid tgt).2 pid
      tgt { p with nice := tgt } hp2 (le_refl tgt)
    exact ⟨h2.1, h2.2.2⟩

/-- C8 witness: a concrete table with one process at nice 0; after a live
renice to 19, the second call reports failure and leaves the table as it
was, by `renice_idempotent` with its hypotheses discharged. -/
theorem renice_idempotent_witness :
    (renice_process false
        (renice_process false
          (fun n => if n = 1 then some ⟨"x", 0, true, true⟩ else none) 1 19).2
        1 19).1.success = false :=
  (((renice_idempotent false
      (fun n => if n = 1 then some ⟨"x", 0, true, true⟩ else none) 1 19
      ⟨"x", 0, true, true⟩ rfl).2) (by decide) rfl).1

/-! ### Runbook engine lemmas -/

theorem execAction_rtype (dry : Bool) (w : World) (a : RbAction) :
    (execAction dry w a).1.rtype = actionTag a := by
  cases a with
  | alert m s => rfl
  | command r t =>
      simp only [execAction, execute_command, actionTag]
      split
      · rfl
      · split <;> rfl
  | wait s =>
      simp only [execAction, execute_wait, actionTag]
      split <;> rfl
  | other => rfl

theorem runActions_rtype (dry : Bool) (acts : List RbAction) :
    ∀ w : World,
      (runActions dry w acts).1.map (fun r => r.rtype) =
        acts.map actionTag := by
  induction acts with
  | nil => intro w; rfl
  | cons a rest ih =>
      intro w
      simp [runActions, execAction_rtype, ih]

theorem execAction_spawned_live (w : World) (a : RbAction) :
    (execAction false w a).2.spawned = w.spawned ++ commandsOf [a] := by
  cases a with
  | alert m s => simp [execAction, execute_alert, commandsOf]
  | command r t =>
      simp only [execAction, execute_command, commandsOf, Bool.false_eq_true,
        if_false]
      split <;> simp [List.filterMap]
  | wait s => simp [execAction, execute_wait, commandsOf]
  | other => simp [execAction, commandsOf]

theorem commandsOf_cons (a : RbAction) (rest : List RbAction) :
    commandsOf (a :: rest) = commandsOf [a] ++ commandsOf rest := by
  cases a <;> simp [commandsOf, List.filterMap_cons]

theorem runActions_spawned_live (acts : List RbAction) :
    ∀ w : World,
      (runActions false w acts).2.spawned = w.spawned ++ commandsOf acts := by
  induction acts with
  | nil => intro w; simp [runActions, commandsOf]
  | cons a rest ih =>
      intro w
      have h1 := execAction_spawned_live w a
      have h2 := ih (execAction false w a).2
      simp only [runActions]
      rw [h2, h1, commandsOf_cons a rest, List.append_assoc]

/-- C9: execute_runbook produces exactly one result per declared action, in
declared order (the result type tags match the action list position by
position), and in live mode every command action of the runbook is spawned in
declared order regardless of earlier failures (no short-circuit). -/
theorem execute_runbook_order (rb : Runbook) (ctx : Context) (dry : Bool)
    (w : World) :
    (execute_runbook rb ctx dry w).1.action_results.length =
      rb.actions.length ∧
    (execute_runbook rb ctx dry w).1.action_results.map (fun r => r.rtype) =
      rb.actions.map actionTag ∧
    (execute_runbook rb ctx false w).2.spawned =
      w.spawned ++ commandsOf rb.actions := by
  refine ⟨?_, ?_, ?_⟩
  · have h := congrArg List.length (runActions_rtype dry rb.actions w)
    simpa [execute_runbook] using h
  · simpa [execute_runbook] using runActions_rtype dry rb.actions w
  · simpa [execute_runbook] using runActions_spawned_live rb.actions w

/-! ### Daemon scheduler lemmas -/

theorem daemonTick_hFire (cfg : DaemonCfg) (st : DaemonState) (now : Int) :
    (daemonTick cfg st now).1 =
      decide (cfg.health_check_interval ≤ now - st.last_health_check) := rfl

theorem daemonTick_rFire (cfg : DaemonCfg) (st : DaemonState) (now : Int) :
    (daemonTick cfg st now).2.1 =
      decide (cfg.resource_check_interval ≤ now - st.last_resource_check) := by
  by_cases hh : cfg.health_check_interval ≤ now - st.last_health_check <;>
    simp [daemonTick, hh]

theorem daemonTick_state_h (cfg : DaemonCfg) (st : DaemonState) (now : Int) :
    (daemonTick cfg st now).2.2.last_health_check =
      if cfg.health_check_interval ≤ now - st.last_health_check then now
      else st.last_health_check := by
  by_cases hh : cfg.health_check_interval ≤ now - st.last_health_check <;>
    by_cases hr : cfg.resource_check_interval ≤ now - st.last_resource_check <;>
    simp [daemonTick, hh, hr]

theorem daemonTick_state_r (cfg : DaemonCfg) (st : DaemonState) (now : Int) :
    (daemonTick cfg st now).2.2.last_resource_check =
      if cfg.resource_check_interval ≤ now - st.last_resource_check then now
      else st.last_resource_check := by
  by_cases hh : cfg.health_check_interval ≤ now - st.last_health_check <;>
    by_cases hr : cfg.resource_check_interval ≤ now - st.last_resource_check <;>
    simp [daemonTick, hh, hr]

/-- C7: with both baselines initialized to 0, the first iteration of the
daemon loop runs both checks (for any tick time at or past both intervals, as
wall-clock time always is), and on every tick each check runs iff `now` minus
its own last-check timestamp is at least its configured interval — the two
timers are independent, each firing condition reading only its own baseline —
and a check's baseline is reset to `now` exactly when it fires. -/
theorem daemon_schedule (cfg : DaemonCfg) (st : DaemonState) (now : Int) :
    ((daemonTick cfg st now).1 = true ↔
      cfg.health_check_interval ≤ now - st.last_health_check) ∧
    ((daemonTick cfg st now).2.1 = true ↔
      cfg.resource_check_interval ≤ now - st.last_resource_check) ∧
    (st = daemonInit → cfg.health_check_interval ≤ now →
      cfg.resource_check_interval ≤ now →
      (daemonTick cfg st now).1 = true ∧
      (daemonTick cfg st now).2.1 = true) ∧
    ((daemonTick cfg st now).2.2.last_health_check =
      if cfg.health_check_interval ≤ now - st.last_health_check then now
      else st.last_health_check) ∧
    ((daemonTick cfg st now).2.2.last_resource_check =
      if cfg.resource_check_interval ≤ now - st.last_resource_check then now
      else st.last_resource_check) := by
  refine ⟨?_, ?_, ?_, daemonTick_state_h cfg st now,
    daemonTick_state_r cfg st now⟩
  · rw [daemonTick_hFire]
    exact decide_eq_true_iff
  · rw [daemonTick_rFire]
    exact decide_eq_true_iff
  · intro he h1 h2
    subst he
    constructor
    · rw [daemonTick_hFire]
      simp [daemonInit]
      exact h1
    · rw [daemonTick_rFire]
      simp [daemonInit]
      exact h2

/-- C7 witness: with the spec's intervals 21600 and 300, baselines 0 and the
first tick at wall-clock time 100000, both checks fire, by `daemon_schedule`
with its hypotheses discharged. -/
theorem daemon_schedule_witness :
    (daemonTick ⟨21600, 300⟩ daemonInit 100000).1 = true ∧
    (daemonTick ⟨21600, 300⟩ daemonInit 100000).2.1 = true :=
  (daemon_schedule ⟨21600, 300⟩ daemonInit 100000).2.2.1 rfl (by decide)
    (by decide)

/-! ### Trigger lemmas -/

theorem check_memory_gt (t : Trigger) (ctx : Context) (th u : ℚ)
    (hth : t.threshold = some th) (hop : t.operator = some ">")
    (hu : ctx.memory_usage = some u) :
    (check_memory_trigger t ctx = true ↔ th < u) := by
  simp [check_memory_trigger, hth, hop, hu]

theorem check_memory_ge (t : Trigger) (ctx : Context) (th u : ℚ)
    (hth : t.threshold = some th) (hop : t.operator = some ">=")
    (hu : ctx.memory_usage = some u) :
    (check_memory_trigger t ctx = true ↔ th ≤ u) := by
  simp [check_memory_trigger, hth, hop, hu]

theorem check_disk_gt (t : Trigger) (ctx : Context) (th : ℚ)
    (disks : List DiskEntry) (hth : t.threshold = some th)
    (hop : t.operator = some ">") (hd : ctx.disk_usage = some disks) :
    (check_disk_trigger t ctx = true ↔
      ∃ d ∈ disks, d.filesystem = t.filesystem.getD "/" ∧
        th < d.usage_percent) := by
  simp [check_disk_trigger, hth, hop, hd]

theorem check_disk_ge (t : Trigger) (ctx : Context) (th : ℚ)
    (disks : List DiskEntry) (hth : t.threshold = some th)
    (hop : t.operator = some ">=") (hd : ctx.disk_usage = some disks) :
    (check_disk_trigger t ctx = true ↔
      ∃ d ∈ disks, d.filesystem = t.filesystem.getD "/" ∧
        th ≤ d.usage_percent) := by
  simp [check_disk_trigger, hth, hop, hd]

theorem check_trigger_disk (rb : Runbook) (ctx : Context)
    (hen : rb.enabled.getD true = true)
    (ht : rb.trigger.ttype = some "disk_usage") :
    check_trigger rb ctx = check_disk_trigger rb.trigger ctx := by
  simp [check_trigger, hen, ht]

theorem check_trigger_memory (rb : Runbook) (ctx : Context)
    (hen : rb.enabled.getD true = true)
    (ht : rb.trigger.ttype = some "memory_usage") :
    check_trigger rb ctx = check_memory_trigger rb.trigger ctx := by
  simp [check_trigger, hen, ht]

/-- C4: for an enabled runbook with threshold `th`, the `>` operator is
strict and the `>=` operator inclusive for both trigger types; in particular
at `usage = th` the `>` trigger never fires while the `>=` trigger fires
(for disk, as soon as a matching filesystem entry exists). -/
theorem trigger_boundary (rb : Runbook) (ctx : Context) (th u : ℚ)
    (disks : List DiskEntry)
    (hen : rb.enabled.getD true = true)
    (hth : rb.trigger.threshold = some th) :
    (rb.trigger.ttype = some "memory_usage" → ctx.memory_usage = some th →
      (rb.trigger.operator = some ">" → check_trigger rb ctx = false) ∧
      (rb.trigger.operator = some ">=" → check_trigger rb ctx = true)) ∧
    (rb.trigger.ttype = some "memory_usage" → ctx.memory_usage = some u →
      (rb.trigger.operator = some ">" →
        (check_trigger rb ctx = true ↔ th < u)) ∧
      (rb.trigger.operator = some ">=" →
        (check_trigger rb ctx = true ↔ th ≤ u))) ∧
    (rb.trigger.ttype = some "disk_usage" → ctx.disk_usage = some disks →
      (rb.trigger.operator = some ">" →
        (check_trigger rb ctx = true ↔ ∃ d ∈ disks,
          d.filesystem = rb.trigger.filesystem.getD "/" ∧
          th < d.usage_percent)) ∧
      (rb.trigger.operator = some ">=" →
        (check_trigger rb ctx = true ↔ ∃ d ∈ disks,
          d.filesystem = rb.trigger.filesystem.getD "/" ∧
          th ≤ d.usage_percent))) ∧
    (rb.trigger.ttype = some "disk_usage" → ctx.disk_usage = some disks →
      (∀ d ∈ disks, d.usage_percent = th) →
      (rb.trigger.operator = some ">" → check_trigger rb ctx = false) ∧
      (rb.trigger.operator = some ">=" →
        (∃ d ∈ disks, d.filesystem = rb.trigger.filesystem.getD "/") →
        check_trigger rb ctx = true)) := by
  refine ⟨?_, ?_, ?_, ?_⟩
  · intro ht hu
    constructor
    · intro hop
      rw [check_trigger_memory rb ctx hen ht]
      rw [Bool.eq_false_iff]
      intro hc
      exact absurd ((check_memory_gt rb.trigger ctx th th hth hop hu).mp hc)
        (lt_irrefl th)
    · intro hop
      rw [check_trigger_memory rb ctx hen ht]
      exact (check_memory_ge rb.trigger ctx th th hth hop hu).mpr (le_refl th)
  · intro ht hu
    constructor
    · intro hop
      rw [check_trigger_memory rb ctx hen ht]
      exact check_memory_gt rb.trigger ctx th u hth hop hu
    · intro hop
      rw [check_trigger_memory rb ctx hen ht]
      exact check_memory_ge rb.trigger ctx th u hth hop hu
  · intro ht hd
    constructor
    · intro hop
      rw [check_trigger_disk rb ctx hen ht]
      exact check_disk_gt rb.trigger ctx th disks hth hop hd
    · intro hop
      rw [check_trigger_disk rb ctx hen ht]
      exact check_disk_ge rb.trigger ctx th disks hth hop hd
  · intro ht hd hall
    constructor
    · intro hop
      rw [check_trigger_disk rb ctx hen ht]
      rw [Bool.eq_false_iff]
      intro hc
      obtain ⟨d, hdm, _, hlt⟩ :=
        (check_disk_gt rb.trigger ctx th disks hth hop hd).mp hc
      rw [hall d hdm] at hlt
      exact lt_irrefl th hlt
    · intro hop hex
      rw [check_trigger_disk rb ctx hen ht]
      obtain ⟨d, hdm, hfs⟩ := hex
      exact (check_disk_ge rb.trigger ctx th disks hth hop hd).mpr
        ⟨d, hdm, hfs, le_of_eq (hall d hdm).symm⟩

/-- C4 witness: an enabled memory_usage runbook with threshold 90 and
operator `>=` fires on a context whose memory reading is exactly 90, by
`trigger_boundary` with all hypotheses discharged. -/
theorem trigger_boundary_witness :
    check_trigger
      { name := some "m", enabled := none,
        trigger := { ttype := some "memory_usage", threshold := some 90,
                     operator := some ">=", filesystem := none },
        actions := [] }
      { disk_usage := none, memory_usage := some 90 } = true :=
  ((trigger_boundary
      { name := some "m", enabled := none,
        trigger := { ttype := some "memory_usage", threshold := some 90,
                     operator := some ">=", filesystem := none },
        actions := [] }
      { disk_usage := none, memory_usage := some 90 } 90 90 [] rfl rfl).1
    rfl rfl).2 rfl
